import Mathlib

/-!
Verification of the po-missing reconciler (src/main.rs).

The embedding models one locale's reconciliation. File contents are modelled
as parsed entry lists; the external catalog loader/saver (rspolib) is assumed
to round-trip faithfully, so saving a catalog and reloading it yields the same
entries. File-system side effects are tracked as counters of writes/deletes.
-/

namespace PoMissing

/-- One PO entry: msgid (empty string = header), optional msgctxt,
optional msgstr. Mirrors the fields of rspolib's entry used by main.rs. -/
structure POEntry where
  msgid : String
  msgctxt : Option String
  msgstr : Option String
deriving DecidableEq

/-- Rust's `s.trim().is_empty()` test: trimming leading/trailing whitespace
leaves the empty string exactly when every character of `s` is whitespace,
which is how it is modelled here (kernel-computable, unlike String.trim). -/
def trimIsEmpty (s : String) : Bool :=
  s.toList.all Char.isWhitespace

/-- The match predicate from line 113-115 of main.rs:
`e.msgid == missing_entry.msgid && e.msgctxt == missing_entry.msgctxt`. -/
def entryMatches (m me : POEntry) : Bool :=
  m.msgid == me.msgid && m.msgctxt == me.msgctxt

/-- An entry of the missing catalog qualifies for merge-back: not the header
(lines 103-105) and msgstr present with non-empty trim (lines 108-109). -/
def qualifies (e : POEntry) : Bool :=
  !e.msgid.isEmpty &&
    (match e.msgstr with
     | some s => !trimIsEmpty s
     | none => false)

/-- State threaded through the merge-back loop of process_locale
(lines 97-122): the main catalog entries plus the two counters/flags. -/
structure MergeState where
  entries : List POEntry
  updatedCount : Nat
  hasNonEmpty : Bool
deriving DecidableEq

/-- `iter_mut().find(...)` followed by the msgstr assignment (lines 113-118):
update the first entry matching `me`, returning the new list and whether a
match was found. -/
def updateFirst (l : List POEntry) (me : POEntry) (s : String) :
    List POEntry × Bool :=
  match l with
  | [] => ([], false)
  | x :: xs =>
    if entryMatches x me then ({ x with msgstr := some s } :: xs, true)
    else
      let r := updateFirst xs me s
      (x :: r.1, r.2)

/-- One iteration of the merge-back loop (lines 101-122) for missing entry
`me`: skip the header, skip empty/whitespace translations, otherwise set the
flag, and update the first matching main entry (incrementing the counter)
when one exists. -/
def mergeStep (st : MergeState) (me : POEntry) : MergeState :=
  if me.msgid.isEmpty then st
  else
    match me.msgstr with
    | none => st
    | some s =>
      if trimIsEmpty s then st
      else
        let r := updateFirst st.entries me s
        if r.2 then ⟨r.1, st.updatedCount + 1, true⟩
        else ⟨st.entries, st.updatedCount, true⟩

/-- The whole merge-back loop over the missing catalog (lines 101-122). -/
def mergeBack (main missing : List POEntry) : MergeState :=
  List.foldl mergeStep ⟨main, 0, false⟩ missing

/-- The missing-translation test of lines 221-224: msgstr absent, or present
but empty/whitespace-only after trimming. -/
def isMissingEntry (e : POEntry) : Bool :=
  match e.msgstr with
  | none => true
  | some s => trimIsEmpty s

/-- The collection loop of extract_current_missing (lines 213-230): skip the
header, keep entries whose translation is missing, preserving order. -/
def collectMissing : List POEntry → List POEntry
  | [] => []
  | e :: rest =>
    if e.msgid.isEmpty then collectMissing rest
    else if isMissingEntry e then e :: collectMissing rest
    else collectMissing rest

/-- Header copying (lines 208-210): the first entry with empty msgid,
if any, as a one-element list. -/
def headerList (main : List POEntry) : List POEntry :=
  match main.find? (fun e => e.msgid.isEmpty) with
  | some h => [h]
  | none => []

/-- The in-memory new missing catalog built by extract_current_missing:
header first (if present), then the missing entries in main order. -/
def buildNewMissing (main : List POEntry) : List POEntry :=
  headerList main ++ collectMissing main

/-- The `missing_count` computed by the loop: one per appended non-header
missing entry. -/
def missingCount (main : List POEntry) : Nat :=
  (collectMissing main).length

/-- On-disk state of a single catalog file: absent, present but unparseable,
or present and parsed to an entry list. -/
inductive FileState where
  | absent
  | corrupt
  | parsed (entries : List POEntry)
deriving DecidableEq

/-- `path.exists()` on the modelled file. -/
def fileExists : FileState → Bool
  | .absent => false
  | .corrupt => true
  | .parsed _ => true

/-- Counts of file-system side effects performed while processing a locale. -/
structure Effects where
  mainWrites : Nat
  missingWrites : Nat
  missingDeletes : Nat
deriving DecidableEq

def noEffects : Effects := ⟨0, 0, 0⟩

def addEffects (a b : Effects) : Effects :=
  ⟨a.mainWrites + b.mainWrites, a.missingWrites + b.missingWrites,
   a.missingDeletes + b.missingDeletes⟩

/-- extract_current_missing (lines 190-252), Step B + Step C: compute the new
missing catalog from `main`; if the count is positive write it (overwriting),
otherwise delete the missing file when it exists. Returns the resulting
missing-file state and the side effects. -/
def extractCurrentMissing (main : List POEntry) (missingOnDisk : FileState) :
    FileState × Effects :=
  if 0 < missingCount main then
    (.parsed (buildNewMissing main), ⟨0, 1, 0⟩)
  else if fileExists missingOnDisk then
    (.absent, ⟨0, 0, 1⟩)
  else
    (.absent, ⟨0, 0, 0⟩)

/-- Success or failure of processing one locale (the Result of
process_locale). -/
inductive LocaleResult where
  | ok
  | err
deriving DecidableEq

/-- On-disk state of one locale: the main file and the missing file. -/
structure LocaleState where
  main : FileState
  missing : FileState
deriving DecidableEq

/-- process_locale (lines 80-188). Skips absent main; a main file that fails
to parse is an error on every path (lines 93, 163, 176); a parsed missing
catalog triggers the merge-back, and the save/delete/reload of lines 125-141
happens exactly when `has_non_empty_translations` is set; a corrupt or absent
missing file goes straight to extraction. Saving then reloading the main
catalog is modelled as the identity round-trip. -/
def processLocale (s : LocaleState) : LocaleState × Effects × LocaleResult :=
  match s.main with
  | .absent => (s, noEffects, .ok)
  | .corrupt => (s, noEffects, .err)
  | .parsed mainEntries =>
    match s.missing with
    | .parsed missingEntries =>
      let st := mergeBack mainEntries missingEntries
      if st.hasNonEmpty then
        let ex := extractCurrentMissing st.entries .absent
        (⟨.parsed st.entries, ex.1⟩, addEffects ⟨1, 0, 1⟩ ex.2, .ok)
      else
        let ex := extractCurrentMissing mainEntries (.parsed missingEntries)
        (⟨.parsed mainEntries, ex.1⟩, ex.2, .ok)
    | .corrupt =>
      let ex := extractCurrentMissing mainEntries .corrupt
      (⟨.parsed mainEntries, ex.1⟩, ex.2, .ok)
    | .absent =>
      let ex := extractCurrentMissing mainEntries .absent
      (⟨.parsed mainEntries, ex.1⟩, ex.2, .ok)

/-- The per-run loop of extract_missing_translations (lines 45-64): process
each locale, tallying (processed, errors). Returns the new locale states and
the two counters. -/
def runAll : List LocaleState → List LocaleState × Nat × Nat
  | [] => ([], 0, 0)
  | s :: rest =>
    let r := processLocale s
    let t := runAll rest
    match r.2.2 with
    | .ok => (r.1 :: t.1, t.2.1 + 1, t.2.2)
    | .err => (r.1 :: t.1, t.2.1, t.2.2 + 1)

/-- Concrete main catalog from the spec's merge-correctness example:
`[{key:"a", msgstr:None}, {key:"b", msgstr:"x"}]`. -/
def exMainA : List POEntry :=
  [⟨"a", none, none⟩, ⟨"b", none, some "x"⟩]

/-- Concrete missing catalog from the spec's merge-correctness example:
`[{key:"a", msgstr:"merged"}]`. -/
def exMissingA : List POEntry :=
  [⟨"a", none, some "merged"⟩]

/-- A fully translated one-entry main catalog. -/
def exMainB : List POEntry :=
  [⟨"a", none, some "t"⟩]

/-- A missing catalog with one qualifying entry whose key matches nothing
in `exMainB`. -/
def exMissingB : List POEntry :=
  [⟨"b", none, some "x"⟩]

/-- A missing catalog whose only entry has a whitespace-only translation. -/
def exMissingC : List POEntry :=
  [⟨"a", none, some " "⟩]

/-! ## Helper lemmas -/

theorem collectMissing_eq_filter (l : List POEntry) :
    collectMissing l = l.filter (fun e => !e.msgid.isEmpty && isMissingEntry e) := by
  induction l with
  | nil => rfl
  | cons e rest ih =>
    simp only [collectMissing, List.filter_cons]
    cases h1 : e.msgid.isEmpty with
    | true => simp [h1, ih]
    | false =>
      cases h2 : isMissingEntry e with
      | true => simp [h1, h2, ih]
      | false => simp [h1, h2, ih]

theorem mergeStep_not_qualifies (st : MergeState) (me : POEntry)
    (h : qualifies me = false) : mergeStep st me = st := by
  unfold qualifies at h
  unfold mergeStep
  cases h1 : me.msgid.isEmpty with
  | true => simp [h1]
  | false =>
    cases h2 : me.msgstr with
    | none => simp [h1, h2]
    | some s =>
      rw [h1, h2] at h
      simp at h
      simp [h1, h2, h]

theorem foldl_mergeStep_no_qual (l : List POEntry) (st : MergeState)
    (h : ∀ e ∈ l, qualifies e = false) : List.foldl mergeStep st l = st := by
  induction l generalizing st with
  | nil => rfl
  | cons e rest ih =>
    rw [List.foldl_cons, mergeStep_not_qualifies st e (h e (List.mem_cons_self e rest))]
    exact ih st (fun x hx => h x (List.mem_cons_of_mem e hx))

theorem mem_collectMissing {e : POEntry} {l : List POEntry}
    (h : e ∈ collectMissing l) :
    e.msgid.isEmpty = false ∧ isMissingEntry e = true := by
  rw [collectMissing_eq_filter, List.mem_filter] at h
  obtain ⟨-, h2⟩ := h
  simp only [Bool.and_eq_true, Bool.not_eq_true'] at h2
  exact h2

theorem isMissing_not_qualifies {e : POEntry} (h : isMissingEntry e = true) :
    qualifies e = false := by
  unfold isMissingEntry at h
  unfold qualifies
  cases h2 : e.msgstr with
  | none => simp [h2]
  | some s =>
    rw [h2] at h
    have h3 : trimIsEmpty s = true := h
    simp [h2, h3]

theorem mem_headerList {e : POEntry} {l : List POEntry}
    (h : e ∈ headerList l) : e.msgid.isEmpty = true := by
  unfold headerList at h
  cases h2 : l.find? (fun e => e.msgid.isEmpty) with
  | none => rw [h2] at h; simp at h
  | some a =>
    rw [h2] at h
    simp only [List.mem_singleton] at h
    have h3 := List.find?_some h2
    subst h
    simpa using h3

theorem emptyMsgid_not_qualifies {e : POEntry} (h : e.msgid.isEmpty = true) :
    qualifies e = false := by
  unfold qualifies
  simp [h]

theorem buildNewMissing_not_qualifies {e : POEntry} {main : List POEntry}
    (h : e ∈ buildNewMissing main) : qualifies e = false := by
  unfold buildNewMissing at h
  rcases List.mem_append.mp h with h | h
  · exact emptyMsgid_not_qualifies (mem_headerList h)
  · exact isMissing_not_qualifies (mem_collectMissing h).2

theorem mergeBack_buildNewMissing (M main : List POEntry) :
    mergeBack M (buildNewMissing main) = ⟨M, 0, false⟩ :=
  foldl_mergeStep_no_qual _ _ (fun _ he => buildNewMissing_not_qualifies he)

theorem qualifies_true_elim {me : POEntry} {s : String} (hs : me.msgstr = some s)
    (hq : qualifies me = true) :
    me.msgid.isEmpty = false ∧ trimIsEmpty s = false := by
  unfold qualifies at hq
  rw [hs] at hq
  simp only [Bool.and_eq_true, Bool.not_eq_true'] at hq
  exact hq

theorem updateFirst_nomatch (l : List POEntry) (me : POEntry) (s : String)
    (h : ∀ x ∈ l, entryMatches x me = false) :
    updateFirst l me s = (l, false) := by
  induction l with
  | nil => rfl
  | cons x xs ih =>
    have ih2 := ih (fun y hy => h y (List.mem_cons_of_mem x hy))
    simp [updateFirst, h x (List.mem_cons_self x xs), ih2]

theorem updateFirst_match (pre : List POEntry) (x : POEntry) (post : List POEntry)
    (me : POEntry) (s : String)
    (hpre : ∀ y ∈ pre, entryMatches y me = false)
    (hx : entryMatches x me = true) :
    updateFirst (pre ++ x :: post) me s =
      (pre ++ { x with msgstr := some s } :: post, true) := by
  induction pre with
  | nil => simp [updateFirst, hx]
  | cons y ys ih =>
    have hy := hpre y (List.mem_cons_self y ys)
    have ih2 := ih (fun z hz => hpre z (List.mem_cons_of_mem y hz))
    simp [updateFirst, hy, ih2]

theorem mergeStep_hasNonEmpty (st : MergeState) (e : POEntry) :
    (mergeStep st e).hasNonEmpty = (st.hasNonEmpty || qualifies e) := by
  cases hq : qualifies e with
  | false => rw [mergeStep_not_qualifies st e hq]; simp
  | true =>
    unfold qualifies at hq
    unfold mergeStep
    cases h1 : e.msgid.isEmpty with
    | true => rw [h1] at hq; simp at hq
    | false =>
      cases h2 : e.msgstr with
      | none => rw [h1, h2] at hq; simp at hq
      | some s =>
        rw [h1, h2] at hq
        simp at hq
        simp only [h1, h2, hq]
        cases h3 : (updateFirst st.entries e s).2 <;> simp [h3]

theorem foldl_hasNonEmpty (l : List POEntry) (st : MergeState) :
    (List.foldl mergeStep st l).hasNonEmpty = (st.hasNonEmpty || l.any qualifies) := by
  induction l generalizing st with
  | nil => simp
  | cons e rest ih =>
    rw [List.foldl_cons, ih, mergeStep_hasNonEmpty]
    simp [Bool.or_assoc]

theorem mergeBack_hasNonEmpty (main l : List POEntry) :
    (mergeBack main l).hasNonEmpty = l.any qualifies := by
  unfold mergeBack
  rw [foldl_hasNonEmpty]
  simp

theorem entryMatches_eqKeys (m e1 e2 : POEntry)
    (hk : e2.msgid = e1.msgid) (hc : e2.msgctxt = e1.msgctxt) :
    entryMatches m e2 = entryMatches m e1 := by
  unfold entryMatches
  rw [hk, hc]

theorem entryMatches_set_msgstr (m e : POEntry) (t : Option String) :
    entryMatches { m with msgstr := t } e = entryMatches m e := rfl

theorem extract_mainWrites (main : List POEntry) (mf : FileState) :
    (extractCurrentMissing main mf).2.mainWrites = 0 := by
  unfold extractCurrentMissing
  by_cases h : 0 < missingCount main
  · simp [h]
  · by_cases h2 : fileExists mf = true <;> simp [h, h2]

theorem processLocale_shape (m : List POEntry) (mf : FileState) :
    ∃ M df, (processLocale ⟨.parsed m, mf⟩).1 =
      ⟨.parsed M, (extractCurrentMissing M df).1⟩ := by
  cases mf with
  | absent => exact ⟨m, .absent, rfl⟩
  | corrupt => exact ⟨m, .corrupt, rfl⟩
  | parsed l =>
    by_cases h : (mergeBack m l).hasNonEmpty = true
    · exact ⟨(mergeBack m l).entries, .absent, by simp [processLocale, h]⟩
    · exact ⟨m, .parsed l, by simp [processLocale, h]⟩

theorem processLocale_fixedPoint (M : List POEntry) (df : FileState) :
    (processLocale ⟨.parsed M, (extractCurrentMissing M df).1⟩).1 =
        ⟨.parsed M, (extractCurrentMissing M df).1⟩ ∧
    (processLocale ⟨.parsed M, (extractCurrentMissing M df).1⟩).2.1.mainWrites = 0 ∧
    (processLocale ⟨.parsed M, (extractCurrentMissing M df).1⟩).2.2 = .ok := by
  by_cases hc : 0 < missingCount M
  · have hext : (extractCurrentMissing M df).1 = .parsed (buildNewMissing M) := by
      simp [extractCurrentMissing, hc]
    rw [hext]
    simp [processLocale, mergeBack_buildNewMissing, extractCurrentMissing, hc]
  · have hext : (extractCurrentMissing M df).1 = .absent := by
      by_cases h2 : fileExists df = true <;> simp [extractCurrentMissing, hc, h2]
    rw [hext]
    simp [processLocale, extractCurrentMissing, hc, fileExists]

theorem isEmpty_eq_false_iff (s : String) : s.isEmpty = false ↔ s ≠ "" := by
  rw [Bool.eq_false_iff]
  exact not_congr (String.isEmpty_iff s)

theorem extract_absent_missingDeletes (main : List POEntry) :
    (extractCurrentMissing main .absent).2.missingDeletes = 0 := by
  by_cases h : 0 < missingCount main <;>
    simp [extractCurrentMissing, h, fileExists]

/-! ## Claim theorems -/

/-- C1, counterexample: the claim says Step A persists the main catalog,
deletes the missing file and reloads if and only if the update counter is
positive. On main = [{a, "t"}] and missing = [{b, "x"}] the missing entry
qualifies but matches nothing, so the update counter stays 0 — yet the code
still writes the main file and deletes the missing file, because the branch
is gated on the has-non-empty-translations flag, not the counter. -/
theorem mergeGate_counterexample :
    (mergeBack exMainB exMissingB).updatedCount = 0 ∧
    (processLocale ⟨.parsed exMainB, .parsed exMissingB⟩).2.1.mainWrites = 1 ∧
    (processLocale ⟨.parsed exMainB, .parsed exMissingB⟩).2.1.missingDeletes = 1 := by
  decide

/-- C1 (amended): in Step A the main catalog is persisted, the missing file
deleted and the main catalog reloaded if and only if the missing catalog
contains at least one qualifying entry (non-header, translation non-empty
after trimming) — regardless of whether any of them matched; when no entry
qualifies, nothing is persisted or deleted in Step A and Step B runs on the
original main catalog as loaded. In the qualifying branch the run performs
exactly one missing-file delete while Step C (running on the now-absent
file) contributes none, so the delete is Step A's. -/
theorem mergeGate_amended (main miss : List POEntry) :
    (miss.any qualifies = true →
      (processLocale ⟨.parsed main, .parsed miss⟩).2.1.mainWrites = 1 ∧
      (processLocale ⟨.parsed main, .parsed miss⟩).1.main =
          .parsed (mergeBack main miss).entries ∧
      (processLocale ⟨.parsed main, .parsed miss⟩).1.missing =
          (extractCurrentMissing (mergeBack main miss).entries .absent).1 ∧
      (processLocale ⟨.parsed main, .parsed miss⟩).2.1.missingDeletes = 1 ∧
      (extractCurrentMissing (mergeBack main miss).entries
          .absent).2.missingDeletes = 0) ∧
    (miss.any qualifies = false →
      (processLocale ⟨.parsed main, .parsed miss⟩).2.1.mainWrites = 0 ∧
      (processLocale ⟨.parsed main, .parsed miss⟩).2.1.missingDeletes =
          (extractCurrentMissing main (.parsed miss)).2.missingDeletes ∧
      (processLocale ⟨.parsed main, .parsed miss⟩).1.main = .parsed main ∧
      (processLocale ⟨.parsed main, .parsed miss⟩).1.missing =
          (extractCurrentMissing main (.parsed miss)).1) := by
  constructor
  · intro h
    have hb : (mergeBack main miss).hasNonEmpty = true := by
      rw [mergeBack_hasNonEmpty, h]
    simp [processLocale, hb, addEffects, extract_mainWrites,
      extract_absent_missingDeletes]
  · intro h
    have hb : (mergeBack main miss).hasNonEmpty = false := by
      rw [mergeBack_hasNonEmpty, h]
    simp [processLocale, hb, extract_mainWrites]

/-- C1 witness: both branches of the amended gate at concrete inputs,
including the single Step A delete in the qualifying branch. -/
theorem mergeGate_amended_witness :
    (processLocale ⟨.parsed exMainA, .parsed exMissingA⟩).2.1.mainWrites = 1 ∧
    (processLocale ⟨.parsed exMainA, .parsed exMissingA⟩).2.1.missingDeletes = 1 ∧
    (processLocale ⟨.parsed exMainA, .parsed exMissingC⟩).2.1.mainWrites = 0 :=
  ⟨((mergeGate_amended exMainA exMissingA).1 (by decide)).1,
   ((mergeGate_amended exMainA exMissingA).1 (by decide)).2.2.2.1,
   ((mergeGate_amended exMainA exMissingC).2 (by decide)).1⟩

/-- C2: reconcile is idempotent — for any parsed main catalog and any state
of the missing file, running the reconcile a second time on the resulting
locale state changes neither file, performs no Step A main-file write, and
succeeds. -/
theorem reconcile_idempotent (m : List POEntry) (mf : FileState) :
    (processLocale ((processLocale ⟨.parsed m, mf⟩).1)).1 =
        (processLocale ⟨.parsed m, mf⟩).1 ∧
    (processLocale ((processLocale ⟨.parsed m, mf⟩).1)).2.1.mainWrites = 0 ∧
    (processLocale ((processLocale ⟨.parsed m, mf⟩).1)).2.2 = .ok := by
  obtain ⟨M, df, hshape⟩ := processLocale_shape m mf
  rw [hshape]
  exact processLocale_fixedPoint M df

/-- C3: on main = [{a, None}, {b, "x"}] and missing = [{a, "merged"}],
reconcile yields main = [{a, "merged"}, {b, "x"}], the missing file deleted
and not recreated, with exactly one main write and one missing-file delete. -/
theorem merge_concrete_example :
    processLocale ⟨.parsed exMainA, .parsed exMissingA⟩ =
      (⟨.parsed [⟨"a", none, some "merged"⟩, ⟨"b", none, some "x"⟩], .absent⟩,
        ⟨1, 0, 1⟩, .ok) := by
  decide

/-- C4: a missing-catalog entry qualifies iff it is not the header and its
translation is present and non-whitespace; a qualifying entry overwrites the
translation of the first (key, context)-matching main entry verbatim and
bumps the counter; a qualifying entry with no match changes nothing (no
error, no insertion); a non-qualifying entry leaves the whole state
untouched. -/
theorem mergeStep_spec (st : MergeState) (me : POEntry) :
    (qualifies me = true ↔
      me.msgid ≠ "" ∧ ∃ s, me.msgstr = some s ∧ trimIsEmpty s = false) ∧
    (qualifies me = false → mergeStep st me = st) ∧
    (∀ s, me.msgstr = some s → qualifies me = true →
      ((∀ x ∈ st.entries, entryMatches x me = false) →
        mergeStep st me = ⟨st.entries, st.updatedCount, true⟩) ∧
      (∀ pre x post, st.entries = pre ++ x :: post →
        (∀ y ∈ pre, entryMatches y me = false) →
        entryMatches x me = true →
        mergeStep st me =
          ⟨pre ++ { x with msgstr := some s } :: post, st.updatedCount + 1, true⟩)) := by
  refine ⟨?_, mergeStep_not_qualifies st me, ?_⟩
  · unfold qualifies
    cases h2 : me.msgstr with
    | none => simp [h2]
    | some s =>
      simp only [h2, Bool.and_eq_true, Bool.not_eq_true']
      constructor
      · rintro ⟨ha, hb⟩
        exact ⟨(isEmpty_eq_false_iff _).mp ha, s, rfl, hb⟩
      · rintro ⟨ha, s2, hs2, hb⟩
        obtain rfl : s = s2 := by simpa using hs2
        exact ⟨(isEmpty_eq_false_iff _).mpr ha, hb⟩
  · intro s hs hq
    obtain ⟨h1, h2⟩ := qualifies_true_elim hs hq
    constructor
    · intro hnm
      unfold mergeStep
      rw [h1, hs]
      simp [h2, updateFirst_nomatch st.entries me s hnm]
    · intro pre x post hdecomp hpre hx
      unfold mergeStep
      rw [h1, hs, hdecomp]
      simp [h2, updateFirst_match pre x post me s hpre hx]

/-- C4 witness: the qualifying entry {a, "merged"} rewrites the first entry
of the example main catalog. -/
theorem mergeStep_spec_witness :
    mergeStep ⟨exMainA, 0, false⟩ ⟨"a", none, some "merged"⟩ =
      ⟨[⟨"a", none, some "merged"⟩, ⟨"b", none, some "x"⟩], 1, true⟩ :=
  ((mergeStep_spec ⟨exMainA, 0, false⟩ ⟨"a", none, some "merged"⟩).2.2
      "merged" rfl (by decide)).2
    [] ⟨"a", none, none⟩ [⟨"b", none, some "x"⟩] rfl
    (by intro y hy; cases hy) (by decide)

/-- C5: Step B's new catalog is the main catalog's first empty-key entry (when
one exists) followed by exactly the non-header entries whose translation is
absent or whitespace-only, in main-catalog order; the missing count is the
number of those non-header entries, excluding the header. -/
theorem stepB_buildsMissing (main : List POEntry) :
    buildNewMissing main =
      (main.find? (fun e => e.msgid.isEmpty)).toList ++
        main.filter (fun e => !e.msgid.isEmpty && isMissingEntry e) ∧
    missingCount main =
      (main.filter (fun e => !e.msgid.isEmpty && isMissingEntry e)).length := by
  constructor
  · unfold buildNewMissing headerList
    rw [collectMissing_eq_filter]
    cases main.find? (fun e => e.msgid.isEmpty) <;> simp
  · unfold missingCount
    rw [collectMissing_eq_filter]

/-- C6: Step C writes the newly built catalog (overwriting) iff the
non-header missing count is positive; at count 0 the catalog would hold at
most the header, nothing is written, and the missing file is deleted exactly
when it existed. -/
theorem stepC_persist_spec (main : List POEntry) (mf : FileState) :
    (0 < missingCount main →
      extractCurrentMissing main mf = (.parsed (buildNewMissing main), ⟨0, 1, 0⟩)) ∧
    (missingCount main = 0 →
      buildNewMissing main = headerList main ∧
      (extractCurrentMissing main mf).1 = .absent ∧
      (extractCurrentMissing main mf).2.missingWrites = 0 ∧
      (extractCurrentMissing main mf).2.missingDeletes =
        (if fileExists mf then 1 else 0)) := by
  constructor
  · intro h
    simp [extractCurrentMissing, h]
  · intro h
    have h2 : ¬ 0 < missingCount main := by omega
    have h3 : collectMissing main = [] :=
      List.length_eq_zero.mp h
    refine ⟨by simp [buildNewMissing, h3], ?_⟩
    by_cases h4 : fileExists mf = true <;>
      simp [extractCurrentMissing, h2, h4]

/-- C6 witness: both branches of Step C at concrete inputs. -/
theorem stepC_persist_witness :
    extractCurrentMissing exMainA .absent =
      (.parsed (buildNewMissing exMainA), ⟨0, 1, 0⟩) ∧
    (extractCurrentMissing exMainB .corrupt).1 = .absent :=
  ⟨(stepC_persist_spec exMainA .absent).1 (by decide),
   ((stepC_persist_spec exMainB .corrupt).2 (by decide)).2.1⟩

/-- C7: a missing file that exists but fails to parse is not fatal: the
locale succeeds, the main file is untouched, Steps B/C recompute the missing
file exactly as they would with no missing file; a main catalog that fails
to parse is fatal for the locale, with no side effects. -/
theorem corruptMissing_nonfatal (main : List POEntry) (mf : FileState) :
    (processLocale ⟨.parsed main, .corrupt⟩).2.2 = .ok ∧
    (processLocale ⟨.parsed main, .corrupt⟩).1.main = .parsed main ∧
    (processLocale ⟨.parsed main, .corrupt⟩).2.1.mainWrites = 0 ∧
    (processLocale ⟨.parsed main, .corrupt⟩).1.missing =
      (extractCurrentMissing main .corrupt).1 ∧
    (processLocale ⟨.parsed main, .corrupt⟩).1.missing =
      (processLocale ⟨.parsed main, .absent⟩).1.missing ∧
    processLocale ⟨.corrupt, mf⟩ = (⟨.corrupt, mf⟩, noEffects, .err) := by
  refine ⟨rfl, rfl, extract_mainWrites main .corrupt, rfl, ?_, rfl⟩
  show (extractCurrentMissing main .corrupt).1 =
    (extractCurrentMissing main .absent).1
  by_cases h : 0 < missingCount main <;>
    simp [extractCurrentMissing, h, fileExists]

/-- C8: a locale whose main file does not exist is skipped with zero side
effects — even when a missing file is present, nothing is written or
deleted — the call succeeds, and the run-level error counter is unchanged. -/
theorem skip_absent_main (mf : FileState) (rest : List LocaleState) :
    processLocale ⟨.absent, mf⟩ = (⟨.absent, mf⟩, noEffects, .ok) ∧
    (runAll (⟨.absent, mf⟩ :: rest)).2.2 = (runAll rest).2.2 := by
  exact ⟨rfl, rfl⟩

/-- C9: two qualifying missing entries with the same (key, context) are
applied in order to the same first-matching main entry: the entry ends with
the second occurrence's translation and the counter is incremented once per
occurrence, here twice for one changed entry. -/
theorem duplicate_lastWins (pre : List POEntry) (x : POEntry) (post : List POEntry)
    (e1 e2 : POEntry) (s1 s2 : String)
    (h1 : e1.msgstr = some s1) (h2 : e2.msgstr = some s2)
    (hq1 : qualifies e1 = true) (hq2 : qualifies e2 = true)
    (hk : e2.msgid = e1.msgid) (hc : e2.msgctxt = e1.msgctxt)
    (hpre : ∀ y ∈ pre, entryMatches y e1 = false)
    (hx : entryMatches x e1 = true) :
    mergeBack (pre ++ x :: post) [e1, e2] =
      ⟨pre ++ { x with msgstr := some s2 } :: post, 2, true⟩ := by
  obtain ⟨hne1, htrim1⟩ := qualifies_true_elim h1 hq1
  obtain ⟨hne2, htrim2⟩ := qualifies_true_elim h2 hq2
  have hstep1 : mergeStep ⟨pre ++ x :: post, 0, false⟩ e1 =
      ⟨pre ++ { x with msgstr := some s1 } :: post, 1, true⟩ := by
    unfold mergeStep
    rw [hne1, h1]
    simp [htrim1, updateFirst_match pre x post e1 s1 hpre hx]
  have hpre2 : ∀ y ∈ pre, entryMatches y e2 = false := fun y hy => by
    rw [entryMatches_eqKeys y e1 e2 hk hc]
    exact hpre y hy
  have hx2 : entryMatches { x with msgstr := some s1 } e2 = true := by
    rw [entryMatches_eqKeys _ e1 e2 hk hc, entryMatches_set_msgstr]
    exact hx
  have hstep2 :
      mergeStep ⟨pre ++ { x with msgstr := some s1 } :: post, 1, true⟩ e2 =
        ⟨pre ++ { x with msgstr := some s2 } :: post, 2, true⟩ := by
    unfold mergeStep
    rw [hne2, h2]
    simp [htrim2,
      updateFirst_match pre { x with msgstr := some s1 } post e2 s2 hpre2 hx2]
  unfold mergeBack
  rw [List.foldl_cons, hstep1, List.foldl_cons, hstep2]
  rfl

/-- C9 witness: on main [{a, None}] and missing [{a, "first"}, {a, "second"}]
the entry ends at "second" with the counter at 2. -/
theorem duplicate_lastWins_witness :
    mergeBack [⟨"a", none, none⟩]
        [⟨"a", none, some "first"⟩, ⟨"a", none, some "second"⟩] =
      ⟨[⟨"a", none, some "second"⟩], 2, true⟩ :=
  duplicate_lastWins [] ⟨"a", none, none⟩ [] ⟨"a", none, some "first"⟩
    ⟨"a", none, some "second"⟩ "first" "second" rfl rfl (by decide) (by decide)
    rfl rfl (by intro y hy; cases hy) (by decide)

/-- C10: a locale whose main file does not exist still returns success, so
the processed tally counts it exactly like a reconciled locale while the
error tally is unchanged. -/
theorem skip_counts_processed (mf : FileState) (rest : List LocaleState) :
    (runAll (⟨.absent, mf⟩ :: rest)).2.1 = (runAll rest).2.1 + 1 ∧
    (runAll (⟨.absent, mf⟩ :: rest)).2.2 = (runAll rest).2.2 := by
  exact ⟨rfl, rfl⟩

end PoMissing
